import Mathlib

/-!
Verification development for the ARG/ARM risk-lookup application
(`src/app.py`).  The app's core operations — single-gene exact/fuzzy
lookup, bulk lookup, and the abundance-weighted risk-index calculator —
are shallowly embedded below.  All string processing is done over
`List Char` with structural recursion so that every definition is
executable and kernel-reducible on concrete inputs.

Numeric values (Python floats, pandas numeric cells) are modelled as `ℚ`:
every claim under study concerns null-propagation, joining and summation
structure, none concerns floating-point rounding.
-/

namespace ArgRisk

/-! ## Character / string utilities

Python string primitives used by `app.py` (`str.strip`, `str.lower`,
`str.splitlines`, `str.split(sep, 1)`, `"," in line`) modelled over
`List Char`.  `String` is used only at the boundary (a Lean `String`
wraps its `data : List Char`). -/

/-- Whitespace recognized by Python's `str.strip()` (the common cases). -/
def isWS (c : Char) : Bool :=
  c == ' ' || c == '\t' || c == '\n' || c == '\r'

/-- Python `str.strip()` on a character list. -/
def trimL (l : List Char) : List Char :=
  ((l.dropWhile isWS).reverse.dropWhile isWS).reverse

/-- Python `str.strip()`. -/
def pyStrip (s : String) : String := ⟨trimL s.data⟩

/-- Python `str.lower()` (ASCII-adequate model via `Char.toLower`). -/
def pyLower (s : String) : String := ⟨s.data.map Char.toLower⟩

/-- Split a character list at every occurrence of `sep`, keeping empty
segments — the model of Python `str.splitlines()` / `str.split(sep)`
used for newline splitting. -/
def splitListOn (sep : Char) : List Char → List (List Char)
  | [] => [[]]
  | c :: cs =>
    if c = sep then [] :: splitListOn sep cs
    else
      match splitListOn sep cs with
      | [] => [[c]]
      | t :: ts => (c :: t) :: ts

/-- Python `text.splitlines()`, modelled as splitting on `'\n'`. -/
def splitLines (text : String) : List String :=
  (splitListOn '\n' text.data).map (fun l => ⟨l⟩)

/-- Python `line.split(sep, 1)`: the part before the first `sep` and the
remainder after it (remainder empty when `sep` is absent; callers in the
app guard on `sep ∈ line` first, mirroring `if "," in line`). -/
def splitFirst (sep : Char) : List Char → (List Char × List Char)
  | [] => ([], [])
  | c :: cs =>
    if c = sep then ([], cs)
    else
      let p := splitFirst sep cs
      (c :: p.1, p.2)

/-! ## Cells and numeric parsing

A tabular cell is a number, a text value, or missing (pandas `NaN`).
`parseFloat` models Python `float(str)` / `pd.to_numeric` on string
input for plain decimal literals (sign, digits, optional fractional
part); scientific notation is out of scope for the claims at hand —
only *whether* a value parses matters, and the witnesses use plain
decimals. -/

inductive Cell where
  | num (q : ℚ)
  | text (s : String)
  | na
deriving DecidableEq

/-- Value of a non-empty all-digit character list, `none` otherwise. -/
def digitsGo : List Char → ℕ → Option ℕ
  | [], acc => some acc
  | c :: cs, acc =>
    if c.isDigit then digitsGo cs (acc * 10 + (c.toNat - 48)) else none

/-- Parse a non-empty digit string. -/
def digitsVal (cs : List Char) : Option ℕ :=
  if cs.isEmpty then none else digitsGo cs 0

/-- Unsigned decimal literal: `"12"`, `"12.5"`, `".5"`, `"12."`. -/
def parseUnsigned (l : List Char) : Option ℚ :=
  let p := splitFirst '.' l
  if p.1.isEmpty && p.2.isEmpty then none
  else if p.1.isEmpty then
    (digitsVal p.2).map (fun f => mkRat f (10 ^ p.2.length))
  else if p.2.isEmpty then
    (digitsVal p.1).map (fun n => mkRat n 1)
  else
    match digitsVal p.1, digitsVal p.2 with
    | some n, some f => some (mkRat (n * 10 ^ p.2.length + f) (10 ^ p.2.length))
    | _, _ => none

/-- Signed decimal literal after stripping surrounding whitespace. -/
def parseFloatL (l : List Char) : Option ℚ :=
  match l with
  | '-' :: rest => (parseUnsigned rest).map (fun q => -q)
  | '+' :: rest => parseUnsigned rest
  | _ => parseUnsigned l

/-- Python `float(s)` as an optional value (`None` = raised `ValueError`,
which `app.py` converts to a null abundance via `try/except`). -/
def parseFloat (s : String) : Option ℚ := parseFloatL (trimL s.data)

/-- Model of `pd.to_numeric(col, errors="coerce")` on one cell: numbers
pass through, strings are parsed, missing/unparsable becomes `NaN`
(`none`). -/
def toNumericCoerce : Cell → Option ℚ
  | .num q => some q
  | .text s => parseFloat s
  | .na => none

/-! ## Reference dataset rows

One row of the loaded reference `DataFrame` as the lookup tabs see it:
the `Genes` display name plus the remaining named cells.  `gene_key` is
derived exactly as `app.py` line 60 does:
`d["Genes"].astype(str).str.strip().str.lower()`. -/

structure RefRow where
  genes : String
  cells : List (String × Cell)
deriving DecidableEq

/-- Derived lookup key of a reference row (`app.py` line 60). -/
def gene_key (r : RefRow) : String := pyLower (pyStrip r.genes)

/-- Cell of a reference row under a column name (missing column reads as
`NaN`, as a pandas row lookup of an absent field would in the joined
frame). -/
def lookupCell (r : RefRow) (col : String) : Cell :=
  match r.cells.find? (fun p => p.1 = col) with
  | some p => p.2
  | none => .na

/-! ## Matcher (rapidfuzz models)

`process.extractOne(q, choices, scorer=WRatio, score_cutoff=c)` and
`process.extract(q, choices, scorer=WRatio, limit=5)` are modelled
generically over the scorer `sc : String → String → ℚ` (WRatio itself is
library code; every claim about the matcher is a property of the
selection logic, valid for any scorer).  `extractOne` keeps the
highest-scoring choice whose score is at least the cutoff, first
occurrence winning ties; `extract` returns the choices stably sorted by
descending score, truncated to `limit`, with no cutoff applied. -/

/-- Fold of `extractOne` over the remaining choices, carrying the best
acceptable candidate so far. -/
def extractOneGo (f : String → ℚ) (cutoff : ℕ) :
    List String → Option (String × ℚ) → Option (String × ℚ)
  | [], best => best
  | c :: cs, best =>
    match best with
    | none =>
      extractOneGo f cutoff cs
        (if (cutoff : ℚ) ≤ f c then some (c, f c) else none)
    | some (bc, bs) =>
      extractOneGo f cutoff cs
        (if bs < f c then some (c, f c) else some (bc, bs))

/-- Model of `rapidfuzz.process.extractOne` with a score cutoff. -/
def extractOne (sc : String → String → ℚ) (q : String)
    (choices : List String) (cutoff : ℕ) : Option (String × ℚ) :=
  extractOneGo (sc q) cutoff choices none

/-- Descending-score ordering on scored candidates (ties keep corpus
order, i.e. the relation is non-strict so earlier elements stay first
under a stable sort). -/
def scoreGE (a b : String × ℚ) : Prop := b.2 ≤ a.2

instance : DecidableRel scoreGE := fun a b => inferInstanceAs (Decidable (b.2 ≤ a.2))

instance : IsTotal (String × ℚ) scoreGE := ⟨fun a b => le_total b.2 a.2⟩

instance : IsTrans (String × ℚ) scoreGE := ⟨fun _ _ _ h1 h2 => le_trans h2 h1⟩

/-- Model of `rapidfuzz.process.extract` with `limit` and no score
cutoff (the app's single-lookup call passes none, so rapidfuzz's default
of no cutoff applies). -/
def extract (sc : String → String → ℚ) (q : String)
    (choices : List String) (limit : ℕ) : List (String × ℚ) :=
  (List.insertionSort scoreGE (choices.map (fun c => (c, sc q c)))).take limit

/-! ## Single gene lookup (tab 1) -/

/-- Exact branch of the single lookup (`app.py` lines 122-130):
`hit = df[df["gene_key"] == q.lower()]`, `None` when empty, else
`hit.iloc[0]`. -/
def singleExact (df : List RefRow) (q : String) : Option RefRow :=
  (df.filter (fun r => gene_key r = pyLower q)).head?

/-- Fuzzy branch of the single lookup (`app.py` lines 104-111):
`process.extract(..., limit=5)`; warn when empty, else take the best
key and fetch `df[df["gene_key"] == best_key].iloc[0]`. -/
def singleFuzzy (sc : String → String → ℚ) (df : List RefRow) (q : String) :
    Option RefRow :=
  match extract sc (pyLower q) (df.map gene_key) 5 with
  | [] => none
  | (best_key, _) :: _ => (df.filter (fun r => gene_key r = best_key)).head?

/-! ## Bulk lookup (tab 2) -/

/-- One output record of the bulk loop: the query, the matched reference
row (if any), the `Match` display field, and the `Note`. -/
structure BulkRow where
  query : String
  matched : Option RefRow
  matchField : String
  note : String
deriving DecidableEq

/-- Body of the bulk-lookup loop for one query (`app.py` lines 146-168).
The fuzzy branch calls `extractOne` with the cutoff; a miss appends a
record whose note embeds the cutoff.  A hit fetches
`df[df["gene_key"] == best_key].iloc[0]` (first matching row); that
fetch cannot miss since the best key is drawn from `df`'s own keys, but
the model stays total via a defensive branch. -/
def bulkOne (sc : String → String → ℚ) (df : List RefRow) (fuzzyb : Bool)
    (cutoff : ℕ) (q : String) : BulkRow :=
  if fuzzyb then
    match extractOne sc (pyLower q) (df.map gene_key) cutoff with
    | none => ⟨q, none, "", "No fuzzy match ≥" ++ toString cutoff⟩
    | some (best_key, _) =>
      match (df.filter (fun r => gene_key r = best_key)).head? with
      | some r => ⟨q, some r, r.genes, "Fuzzy"⟩
      | none => ⟨q, none, "", "Fuzzy"⟩
  else
    match (df.filter (fun r => gene_key r = pyLower q)).head? with
    | none => ⟨q, none, "", "No exact match"⟩
    | some r => ⟨q, some r, r.genes, "Exact"⟩

/-- The bulk query list (`app.py` line 143):
`[x.strip() for x in bulk_text.splitlines() if x.strip()]`. -/
def bulkQueries (text : String) : List String :=
  (splitLines text).filterMap (fun x =>
    let t := pyStrip x
    if t = "" then none else some t)

/-- The bulk loop (`app.py` lines 146-168) appends exactly one record
per query, in order. -/
def bulkResolve (sc : String → String → ℚ) (df : List RefRow)
    (fuzzyb : Bool) (cutoff : ℕ) (queries : List String) : List BulkRow :=
  queries.map (bulkOne sc df fuzzyb cutoff)

/-! ## Risk Index Calculator (tab 3) -/

/-- One abundance entry: gene name and the parsed abundance
(`None` when `float(...)` failed, `app.py` lines 206-209 / 218-221). -/
structure InputRow where
  genes : String
  abundance : Option ℚ
deriving DecidableEq

/-- Parsing of the pasted-text input (`app.py` lines 202-210): per line,
only when `"," in line`, split at the first comma, strip the gene name,
try `float` on the remainder. -/
def parseCalcLine (line : String) : InputRow :=
  let p := splitFirst ',' line.data
  { genes := ⟨trimL p.1⟩, abundance := parseFloat ⟨p.2⟩ }

/-- Whether a pasted line contains a comma (`"," in line`). -/
def lineHasComma (line : String) : Bool := line.data.contains ','

/-- The pasted-text parser of the calculator (`app.py` lines 202-210):
lines without a comma are skipped silently, every other line yields one
entry. -/
def parseCalcText (text : String) : List InputRow :=
  (splitLines text).filterMap (fun line =>
    if lineHasComma line then some (parseCalcLine line) else none)

/-- The per-entry lookup key (`app.py` line 228):
`inp["Genes"].str.strip().str.lower()`. -/
def queryKey (e : InputRow) : String := pyLower (pyStrip e.genes)

/-- The merge key of an entry (`app.py` lines 229-238): in fuzzy mode
the `extractOne` result (`None` on miss), in exact mode the query key
itself. -/
def matchKeyOf (sc : String → String → ℚ) (df : List RefRow) (fuzzyc : Bool)
    (cutoff : ℕ) (e : InputRow) : Option String :=
  if fuzzyc then
    (extractOne sc (queryKey e) (df.map gene_key) cutoff).map (fun p => p.1)
  else some (queryKey e)

/-- All reference rows matching an entry's merge key, in load order —
the right-hand side the pandas left merge pairs the entry with (a `None`
merge key matches nothing). -/
def matchedRows (sc : String → String → ℚ) (df : List RefRow) (fuzzyc : Bool)
    (cutoff : ℕ) (e : InputRow) : List RefRow :=
  match matchKeyOf sc df fuzzyc cutoff e with
  | none => []
  | some mk => df.filter (fun r => gene_key r = mk)

/-- One row of the merged frame: the input's gene name (column `Genes_q`
after suffixing), its abundance, and the joined reference row (`none` =
all reference-sourced fields `NaN`). -/
structure JoinedRow where
  genes_q : String
  abundance : Option ℚ
  ref : Option RefRow
deriving DecidableEq

/-- Rows the left merge (`app.py` lines 236/238) produces for one input
entry: one per matching reference row; when nothing matches, the entry
itself with all reference fields null. -/
def joinRowsFor (sc : String → String → ℚ) (df : List RefRow) (fuzzyc : Bool)
    (cutoff : ℕ) (e : InputRow) : List JoinedRow :=
  match matchedRows sc df fuzzyc cutoff e with
  | [] => [⟨e.genes, e.abundance, none⟩]
  | ms => ms.map (fun r => ⟨e.genes, e.abundance, some r⟩)

/-- The full left merge: concatenation of each entry's joined rows, in
input order. -/
def riskJoin (sc : String → String → ℚ) (df : List RefRow) (fuzzyc : Bool)
    (cutoff : ℕ) (entries : List InputRow) : List JoinedRow :=
  entries.flatMap (joinRowsFor sc df fuzzyc cutoff)

/-- The score cell the chosen column reads on a joined row (an unmatched
row reads `NaN` for every reference-sourced column). -/
def scoreCellOf (chosen : String) (j : JoinedRow) : Cell :=
  match j.ref with
  | none => .na
  | some r => lookupCell r chosen

/-- `app.py` line 241:
`pd.to_numeric(joined[chosen_score], errors="coerce").fillna(0.0)`. -/
def riskScoreOf (chosen : String) (j : JoinedRow) : ℚ :=
  (toNumericCoerce (scoreCellOf chosen j)).getD 0

/-- `app.py` line 242: `joined["Abundance"] * joined["Risk_Score"]` —
a null abundance propagates a null product. -/
def productOf (chosen : String) (j : JoinedRow) : Option ℚ :=
  j.abundance.map (fun a => a * riskScoreOf chosen j)

/-- Pandas `Series.sum(skipna=True)`: nulls are skipped, not zeroed. -/
def sumSkipNA : List (Option ℚ) → ℚ
  | [] => 0
  | none :: xs => sumSkipNA xs
  | some x :: xs => x + sumSkipNA xs

/-- `app.py` line 243: `total = joined["Product"].sum(skipna=True)`. -/
def riskTotal (chosen : String) (rows : List JoinedRow) : ℚ :=
  sumSkipNA (rows.map (productOf chosen))

/-! ## Dataset load (`load_data`, `app.py` lines 49-61)

The delimiter-fallback stage (`read_csv` with comma, tab, then sniffed
separator) concerns file IO and is upstream of every claim; `load_data`
is modelled from the point where a parsed header row and cell rows
exist.  The function validates the presence of the `Genes` column and
appends the derived `gene_key` column; it performs no missing-value
replacement. -/

structure DataFrame where
  columns : List String
  rows : List (List Cell)
deriving DecidableEq

/-- Cell of a row under a column name (`NaN` when absent). -/
def getCell (cols : List String) (row : List Cell) (col : String) : Cell :=
  match cols.findIdx? (fun c => c = col) with
  | some i => row.getD i .na
  | none => .na

/-- Pandas `astype(str)` on one cell (`NaN` stringifies to `"nan"`). -/
def cellToString : Cell → String
  | .num q => toString q
  | .text s => s
  | .na => "nan"

/-- The derived `gene_key` cell of one row (`app.py` line 60). -/
def deriveGeneKey (cols : List String) (row : List Cell) : Cell :=
  .text (pyLower (pyStrip (cellToString (getCell cols row "Genes"))))

/-- `load_data` (`app.py` lines 50-61): require the `Genes` column,
raising `ValueError("Your file must include a 'Genes' column.")`
otherwise; on success append the `gene_key` column and return the frame
with every original cell untouched. -/
def load_data (d : DataFrame) : Except String DataFrame :=
  if "Genes" ∈ d.columns then
    .ok ⟨d.columns ++ ["gene_key"],
         d.rows.map (fun row => row ++ [deriveGeneKey d.columns row])⟩
  else
    .error "Your file must include a 'Genes' column."

/-! ## General lemmas -/

/-- The null-skipping sum equals the plain sum of the non-null entries. -/
lemma sumSkipNA_eq_filterMap :
    ∀ xs : List (Option ℚ), sumSkipNA xs = (xs.filterMap id).sum
  | [] => rfl
  | none :: xs => by
      simp [sumSkipNA, List.filterMap_cons, sumSkipNA_eq_filterMap xs]
  | some x :: xs => by
      simp [sumSkipNA, List.filterMap_cons, sumSkipNA_eq_filterMap xs]

/-- Once `extractOne`'s fold holds a candidate it never returns `none`. -/
lemma extractOneGo_some (f : String → ℚ) (cutoff : ℕ) :
    ∀ (cs : List String) (p : String × ℚ),
      extractOneGo f cutoff cs (some p) ≠ none
  | [], _ => by simp [extractOneGo]
  | c :: cs, p => by
      simp only [extractOneGo]
      split
      · exact extractOneGo_some f cutoff cs _
      · exact extractOneGo_some f cutoff cs _

/-- Starting from no candidate, the fold returns `none` exactly when
every remaining choice scores strictly below the cutoff. -/
lemma extractOneGo_none_iff (f : String → ℚ) (cutoff : ℕ) :
    ∀ cs : List String,
      extractOneGo f cutoff cs none = none ↔ ∀ c ∈ cs, f c < (cutoff : ℚ)
  | [] => by simp [extractOneGo]
  | c :: cs => by
      simp only [extractOneGo]
      by_cases h : (cutoff : ℚ) ≤ f c
      · rw [if_pos h]
        constructor
        · intro hgo
          exact absurd hgo (extractOneGo_some f cutoff cs _)
        · intro hall
          exact absurd h (not_le.mpr (hall c (List.mem_cons_self c cs)))
      · rw [if_neg h]
        rw [extractOneGo_none_iff f cutoff cs]
        constructor
        · intro hall c' hc'
          rcases List.mem_cons.mp hc' with rfl | hmem
          · exact not_le.mp h
          · exact hall c' hmem
        · intro hall c' hc'
          exact hall c' (List.mem_cons_of_mem _ hc')

/-- `extractOne` misses exactly when no choice reaches the cutoff. -/
lemma extractOne_eq_none_iff (sc : String → String → ℚ) (q : String)
    (choices : List String) (cutoff : ℕ) :
    extractOne sc q choices cutoff = none ↔
      ∀ c ∈ choices, sc q c < (cutoff : ℚ) :=
  extractOneGo_none_iff (sc q) cutoff choices

/-- Head of a filtered list when the first satisfying element is known:
this is the `df[df["gene_key"] == k].iloc[0]` pattern. -/
lemma head?_filter_first {α} (p : α → Bool) (l1 l2 : List α) (x : α)
    (hx : p x = true) (h1 : ∀ y ∈ l1, p y = false) :
    ((l1 ++ x :: l2).filter p).head? = some x := by
  rw [List.filter_append]
  have h1' : l1.filter p = [] := by
    rw [List.filter_eq_nil_iff]
    intro y hy
    simp [h1 y hy]
  rw [h1', List.nil_append, List.filter_cons, if_pos hx]
  rfl

/-- `filterMap` with an `if`-guarded `some` is `filter` then `map`:
unmatched elements vanish from the output entirely. -/
lemma filterMap_ite {α β} (p : α → Bool) (f : α → β) :
    ∀ l : List α,
      (l.filterMap fun a => if p a then some (f a) else none)
        = (l.filter p).map f
  | [] => rfl
  | a :: l => by
      by_cases h : p a <;>
        simp [List.filterMap_cons, List.filter_cons, h, filterMap_ite p f l]

/-- Indexing a mapped list through `getD`. -/
lemma getD_map {α β} (f : α → β) (l : List α) (i : ℕ) (hi : i < l.length)
    (d : β) (d' : α) : (l.map f).getD i d = f (l.getD i d') := by
  have hi' : i < (l.map f).length := by simpa using hi
  rw [List.getD_eq_getElem l d' hi, List.getD_eq_getElem (l.map f) d hi']
  exact List.getElem_map f

/-! ## Concrete example data used by witnesses and counterexamples -/

/-- A reference row whose chosen score cell holds unparsable text. -/
def rowND : RefRow := ⟨"GeneA", [("Final_Risk_score", .text "Not Defined")]⟩

/-- First of two reference rows sharing the key `"genea"`. -/
def dupA : RefRow := ⟨"GeneA", [("Final_Risk_score", .num 2)]⟩

/-- Second row with the same derived key but different data. -/
def dupB : RefRow := ⟨"genea", [("Final_Risk_score", .num 5)]⟩

/-- A reference row whose key matches nothing below. -/
def rowOther : RefRow := ⟨"other", []⟩

/-- A constant scorer (the claims hold for any scorer). -/
def scZero : String → String → ℚ := fun _ _ => 0

/-- A constant low-scoring scorer. -/
def scLow : String → String → ℚ := fun _ _ => 1

/-- A constant scorer below a cutoff of 70. -/
def scSixty : String → String → ℚ := fun _ _ => 60

/-! ## Claim C1 -/

/-- Claim C1: in the risk-index computation, a joined row whose chosen
score cell is absent or fails numeric parsing gets `Risk_Score = 0.0`
(so a row with parsed abundance `a` still contributes `a * 0` to the
sum), a row whose abundance failed to parse propagates a null product,
and the reported total is the sum of the non-null products. -/
theorem riskIndex_missing_policy (sc : String → String → ℚ)
    (df : List RefRow) (fuzzyc : Bool) (cutoff : ℕ)
    (entries : List InputRow) (chosen : String) :
    (∀ j ∈ riskJoin sc df fuzzyc cutoff entries,
        toNumericCoerce (scoreCellOf chosen j) = none →
          riskScoreOf chosen j = 0 ∧
          ∀ a : ℚ, j.abundance = some a → productOf chosen j = some (a * 0)) ∧
    (∀ j ∈ riskJoin sc df fuzzyc cutoff entries,
        j.abundance = none → productOf chosen j = none) ∧
    riskTotal chosen (riskJoin sc df fuzzyc cutoff entries)
      = (((riskJoin sc df fuzzyc cutoff entries).map (productOf chosen)).filterMap id).sum := by
  refine ⟨?_, ?_, ?_⟩
  · intro j _ hnone
    have hscore : riskScoreOf chosen j = 0 := by
      simp [riskScoreOf, hnone]
    refine ⟨hscore, ?_⟩
    intro a ha
    simp [productOf, ha, hscore]
  · intro j _ hnone
    simp [productOf, hnone]
  · exact sumSkipNA_eq_filterMap _

/-- Witness for C1 at a concrete input: one matched row whose score cell
reads `"Not Defined"` (unparsable), one with a null abundance. -/
theorem riskIndex_missing_policy_witness :
    riskScoreOf "Final_Risk_score" ⟨"GeneA", some 2, some rowND⟩ = 0 ∧
    productOf "Final_Risk_score" ⟨"GeneA", some 2, some rowND⟩ = some (2 * 0) ∧
    productOf "Final_Risk_score" ⟨"GeneA", none, some rowND⟩ = none ∧
    riskTotal "Final_Risk_score"
        (riskJoin scZero [rowND] false 70 [⟨"GeneA", some 2⟩, ⟨"GeneA", none⟩])
      = (((riskJoin scZero [rowND] false 70 [⟨"GeneA", some 2⟩, ⟨"GeneA", none⟩]).map
            (productOf "Final_Risk_score")).filterMap id).sum := by
  have h := riskIndex_missing_policy scZero [rowND] false 70
    [⟨"GeneA", some 2⟩, ⟨"GeneA", none⟩] "Final_Risk_score"
  refine ⟨(h.1 _ ?_ ?_).1, (h.1 _ ?_ ?_).2 2 rfl, h.2.1 _ ?_ rfl, h.2.2⟩ <;> decide

/-! ## Claim C2 -/

/-- Unfolding equation of `joinRowsFor` as a conditional. -/
lemma joinRowsFor_eq (sc : String → String → ℚ) (df : List RefRow)
    (fuzzyc : Bool) (cutoff : ℕ) (e : InputRow) :
    joinRowsFor sc df fuzzyc cutoff e
      = if matchedRows sc df fuzzyc cutoff e = []
        then [⟨e.genes, e.abundance, none⟩]
        else (matchedRows sc df fuzzyc cutoff e).map
          (fun r => ⟨e.genes, e.abundance, some r⟩) := by
  unfold joinRowsFor
  split
  · rename_i heq
    rw [if_pos heq]
  · rename_i ms hne
    rw [if_neg hne]

/-- Every entry contributes at least one joined row. -/
lemma joinRowsFor_length_pos (sc : String → String → ℚ) (df : List RefRow)
    (fuzzyc : Bool) (cutoff : ℕ) (e : InputRow) :
    0 < (joinRowsFor sc df fuzzyc cutoff e).length := by
  rw [joinRowsFor_eq]
  by_cases h : matchedRows sc df fuzzyc cutoff e = []
  · simp [h]
  · rw [if_neg h]
    simpa [List.length_pos] using h

/-- The join output is at least as long as the input. -/
lemma riskJoin_length_ge (sc : String → String → ℚ) (df : List RefRow)
    (fuzzyc : Bool) (cutoff : ℕ) :
    ∀ entries : List InputRow,
      entries.length ≤ (riskJoin sc df fuzzyc cutoff entries).length
  | [] => Nat.le_refl 0
  | e :: es => by
      have h1 := joinRowsFor_length_pos sc df fuzzyc cutoff e
      have h2 := riskJoin_length_ge sc df fuzzyc cutoff es
      simp only [riskJoin, List.flatMap_cons, List.length_append,
        List.length_cons]
      have : es.length ≤ (es.flatMap (joinRowsFor sc df fuzzyc cutoff)).length := h2
      omega

/-- Counterexample to claim C2 as stated: with two reference rows
sharing the key `"genea"`, a single abundance entry produces two joined
rows, so an input entry can yield more than one output row. -/
theorem riskJoin_duplicate_key_cex :
    ([(⟨"GeneA", some 1⟩ : InputRow)].length = 1) ∧
    (riskJoin scZero [dupA, dupB] false 70 [⟨"GeneA", some 1⟩]).length = 2 := by
  constructor <;> rfl

/-- Claim C2 (amended): every input entry survives the left join — the
output has at least one row per entry, an unmatched entry yields exactly
one row with all reference-sourced fields null, and in general an entry
yields one row per matching reference row (`max 1` of the match count),
each carrying the entry's gene name and abundance. -/
theorem riskJoin_left_join_semantics (sc : String → String → ℚ)
    (df : List RefRow) (fuzzyc : Bool) (cutoff : ℕ)
    (entries : List InputRow) :
    entries.length ≤ (riskJoin sc df fuzzyc cutoff entries).length ∧
    ∀ e ∈ entries,
      (joinRowsFor sc df fuzzyc cutoff e).length
        = max 1 (matchedRows sc df fuzzyc cutoff e).length ∧
      (matchedRows sc df fuzzyc cutoff e = [] →
        joinRowsFor sc df fuzzyc cutoff e = [⟨e.genes, e.abundance, none⟩]) ∧
      ∀ j ∈ joinRowsFor sc df fuzzyc cutoff e,
        j.genes_q = e.genes ∧ j.abundance = e.abundance := by
  refine ⟨riskJoin_length_ge sc df fuzzyc cutoff entries, ?_⟩
  intro e _
  refine ⟨?_, ?_, ?_⟩
  · rw [joinRowsFor_eq]
    by_cases h : matchedRows sc df fuzzyc cutoff e = []
    · simp [h]
    · rw [if_neg h, List.length_map]
      have : 0 < (matchedRows sc df fuzzyc cutoff e).length := by
        simpa [List.length_pos] using h
      omega
  · intro hnil
    rw [joinRowsFor_eq, if_pos hnil]
  · intro j hj
    rw [joinRowsFor_eq] at hj
    by_cases h : matchedRows sc df fuzzyc cutoff e = []
    · rw [if_pos h] at hj
      simp only [List.mem_singleton] at hj
      subst hj
      exact ⟨rfl, rfl⟩
    · rw [if_neg h] at hj
      simp only [List.mem_map] at hj
      obtain ⟨r, _, rfl⟩ := hj
      exact ⟨rfl, rfl⟩

/-- Witness for the amended C2 at a concrete input: one matching entry,
one unmatched entry retained with null reference fields. -/
theorem riskJoin_left_join_semantics_witness :
    ([(⟨"GeneA", some 1⟩ : InputRow), ⟨"nomatch", some 2⟩].length
      ≤ (riskJoin scZero [dupA] false 70
          [⟨"GeneA", some 1⟩, ⟨"nomatch", some 2⟩]).length) ∧
    (matchedRows scZero [dupA] false 70 ⟨"nomatch", some 2⟩ = [] →
      joinRowsFor scZero [dupA] false 70 ⟨"nomatch", some 2⟩
        = [⟨"nomatch", some 2, none⟩]) := by
  have h := riskJoin_left_join_semantics scZero [dupA] false 70
    [⟨"GeneA", some 1⟩, ⟨"nomatch", some 2⟩]
  exact ⟨h.1, (h.2 ⟨"nomatch", some 2⟩ (by decide)).2.1⟩

/-! ## Claim C3 -/

/-- Counterexample to claim C3 as stated: the risk-index join does not
resolve a duplicated key to the first matching row — it emits one joined
row per matching reference row, so the second (distinct) row `dupB`
appears in the output as well. -/
theorem riskJoin_not_first_row_cex :
    joinRowsFor scZero [dupA, dupB] false 70 ⟨"GeneA", some 1⟩
      = [⟨"GeneA", some 1, some dupA⟩, ⟨"GeneA", some 1, some dupB⟩] ∧
    dupB ≠ dupA := by
  constructor
  · rfl
  · decide

/-- Claim C3 (amended): the single-gene lookups (exact, and fuzzy when
the best key is the duplicated key) and the bulk lookup resolve a
duplicated key to the first matching row in load order; the risk-index
join instead pairs an entry with every matching reference row, not just
the first.  All operations are pure functions of their inputs, hence
deterministic across repeated runs. -/
theorem lookup_first_occurrence (sc : String → String → ℚ) (cutoff : ℕ)
    (q : String) (df1 df2 : List RefRow) (r : RefRow)
    (h1 : gene_key r = pyLower q)
    (h2 : ∀ x ∈ df1, gene_key x ≠ pyLower q) :
    singleExact (df1 ++ r :: df2) q = some r ∧
    (bulkOne sc (df1 ++ r :: df2) false cutoff q).matched = some r ∧
    (∀ s rest,
      extract sc (pyLower q) ((df1 ++ r :: df2).map gene_key) 5
          = (pyLower q, s) :: rest →
        singleFuzzy sc (df1 ++ r :: df2) q = some r) ∧
    (∀ s : ℚ,
      extractOne sc (pyLower q) ((df1 ++ r :: df2).map gene_key) cutoff
          = some (pyLower q, s) →
        (bulkOne sc (df1 ++ r :: df2) true cutoff q).matched = some r) ∧
    (∀ e : InputRow, queryKey e = pyLower q →
      matchedRows sc (df1 ++ r :: df2) false cutoff e
          = (df1 ++ r :: df2).filter (fun x => gene_key x = pyLower q) ∧
      joinRowsFor sc (df1 ++ r :: df2) false cutoff e
          = ((df1 ++ r :: df2).filter (fun x => gene_key x = pyLower q)).map
              (fun m => ⟨e.genes, e.abundance, some m⟩)) := by
  have hhead : ((df1 ++ r :: df2).filter
      (fun x => gene_key x = pyLower q)).head? = some r := by
    apply head?_filter_first
    · simp [h1]
    · intro y hy
      simp [h2 y hy]
  have hne : (df1 ++ r :: df2).filter (fun x => gene_key x = pyLower q) ≠ [] := by
    intro hnil
    rw [hnil] at hhead
    exact Option.noConfusion hhead
  refine ⟨?_, ?_, ?_, ?_, ?_⟩
  · unfold singleExact
    exact hhead
  · unfold bulkOne
    simp only [if_neg Bool.false_ne_true, hhead]
  · intro s rest hext
    unfold singleFuzzy
    rw [hext]
    exact hhead
  · intro s hext
    unfold bulkOne
    simp only [if_pos rfl, hext, hhead]
    simp
  · intro e hqk
    have hmr : matchedRows sc (df1 ++ r :: df2) false cutoff e
        = (df1 ++ r :: df2).filter (fun x => gene_key x = pyLower q) := by
      unfold matchedRows matchKeyOf
      simp only [Bool.false_eq_true, if_false, hqk]
    refine ⟨hmr, ?_⟩
    rw [joinRowsFor_eq, hmr, if_neg hne]

/-- Witness for the amended C3 at a concrete input with a duplicated
key: the exact single lookup and the exact bulk lookup both return the
first matching row, and the join pairs the entry with both matches. -/
theorem lookup_first_occurrence_witness :
    singleExact [rowOther, dupA, dupB] "GeneA" = some dupA ∧
    (bulkOne scZero [rowOther, dupA, dupB] false 70 "GeneA").matched = some dupA ∧
    matchedRows scZero [rowOther, dupA, dupB] false 70 ⟨"GeneA", some 1⟩
      = [rowOther, dupA, dupB].filter (fun x => gene_key x = pyLower "GeneA") := by
  have h := lookup_first_occurrence scZero 70 "GeneA" [rowOther] [dupB] dupA
    (by decide) (by decide)
  exact ⟨h.1, h.2.1, (h.2.2.2.2 ⟨"GeneA", some 1⟩ (by decide)).1⟩

/-! ## Claim C4 -/

/-- Claim C4: when no column is the canonical gene-name column `Genes`,
`load_data` fails with the typed error naming the missing column
(`ValueError("Your file must include a 'Genes' column.")` in the app,
the spec's `SchemaError`), and no dataset — not even a partial one — is
returned. -/
theorem load_data_missing_genes (d : DataFrame)
    (h : "Genes" ∉ d.columns) :
    load_data d = .error "Your file must include a 'Genes' column." := by
  unfold load_data
  rw [if_neg h]

/-- Witness for C4 at a concrete dataset lacking the `Genes` column. -/
theorem load_data_missing_genes_witness :
    load_data ⟨["Gene_Name", "Score"], [[.text "x", .num 1]]⟩
      = .error "Your file must include a 'Genes' column." :=
  load_data_missing_genes ⟨["Gene_Name", "Score"], [[.text "x", .num 1]]⟩
    (by decide)

/-! ## Claim C5 -/

/-- A dataset with a missing score cell, for the C5 counterexample. -/
def dfNa : DataFrame :=
  ⟨["Genes", "Final_Risk_score"], [[.text "GeneA", .na]]⟩

/-- Counterexample to claim C5 as stated: `load_data` performs no
missing-value replacement — the loaded row still contains the absent
cell `Cell.na`, and the sentinel string `"Unknown"` appears nowhere in
it. -/
theorem load_data_no_unknown_fill_cex :
    load_data dfNa
      = .ok ⟨["Genes", "Final_Risk_score", "gene_key"],
             [[.text "GeneA", .na, .text "genea"]]⟩ ∧
    Cell.na ∈ [Cell.text "GeneA", Cell.na, Cell.text "genea"] ∧
    Cell.text "Unknown" ∉ [Cell.text "GeneA", Cell.na, Cell.text "genea"] := by
  refine ⟨by rfl, by decide, by decide⟩

/-- Claim C5 (amended): `load_data` leaves every cell of the input
untouched — each loaded row is its input row, missing values included,
with only the derived `gene_key` cell appended; missing numeric values
are instead substituted with 0 at aggregation time. -/
theorem load_data_preserves_cells (d d' : DataFrame)
    (h : load_data d = .ok d') :
    ∀ row' ∈ d'.rows, ∃ row ∈ d.rows,
      row' = row ++ [deriveGeneKey d.columns row] ∧
      (Cell.na ∈ row → Cell.na ∈ row') := by
  unfold load_data at h
  split at h
  · injection h with h'
    subst h'
    intro row' hrow'
    simp only [List.mem_map] at hrow'
    obtain ⟨row, hrow, rfl⟩ := hrow'
    exact ⟨row, hrow, rfl, fun hna => List.mem_append_left _ hna⟩
  · exact Except.noConfusion h

/-- Witness for the amended C5: the loaded row of `dfNa` is its original
row (the missing cell surviving) plus the derived key cell. -/
theorem load_data_preserves_cells_witness :
    ∃ row ∈ dfNa.rows,
      [Cell.text "GeneA", Cell.na, Cell.text "genea"]
        = row ++ [deriveGeneKey dfNa.columns row] ∧
      (Cell.na ∈ row → Cell.na ∈ [Cell.text "GeneA", Cell.na, Cell.text "genea"]) :=
  load_data_preserves_cells dfNa
    ⟨["Genes", "Final_Risk_score", "gene_key"],
     [[.text "GeneA", .na, .text "genea"]]⟩
    (by rfl)
    [Cell.text "GeneA", Cell.na, Cell.text "genea"]
    (by decide)

/-! ## Claim C6 -/

/-- Claim C6: the single-best fuzzy match returns no-match exactly when
every corpus score is strictly below the cutoff (equivalently, the best
score is), and a bulk fuzzy miss is reported as a result record whose
note embeds the cutoff value, not as an exception. -/
theorem fuzzy_cutoff_miss_iff (sc : String → String → ℚ) (q : String)
    (choices : List String) (df : List RefRow) (cutoff : ℕ) :
    (extractOne sc q choices cutoff = none ↔
      ∀ c ∈ choices, sc q c < (cutoff : ℚ)) ∧
    (extractOne sc (pyLower q) (df.map gene_key) cutoff = none →
      bulkOne sc df true cutoff q
        = ⟨q, none, "", "No fuzzy match ≥" ++ toString cutoff⟩) := by
  refine ⟨extractOne_eq_none_iff sc q choices cutoff, ?_⟩
  intro hmiss
  unfold bulkOne
  simp only [if_pos rfl, hmiss]
  simp

/-- Witness for C6: with every score at 60 and cutoff 70, the matcher
misses and the bulk record carries the cutoff-bearing note. -/
theorem fuzzy_cutoff_miss_iff_witness :
    extractOne scSixty "x" ["genea"] 70 = none ∧
    bulkOne scSixty [dupA] true 70 "x"
      = ⟨"x", none, "", "No fuzzy match ≥70"⟩ := by
  have h := fuzzy_cutoff_miss_iff scSixty "x" ["genea"] [dupA] 70
  exact ⟨h.1.mpr (by decide), h.2 (by decide)⟩

/-! ## Claim C7 -/

/-- The bulk loop records the query it answers on every branch. -/
lemma bulkOne_query (sc : String → String → ℚ) (df : List RefRow)
    (fuzzyb : Bool) (cutoff : ℕ) (q : String) :
    (bulkOne sc df fuzzyb cutoff q).query = q := by
  unfold bulkOne
  repeat' split
  all_goals rfl

/-- Claim C7: after blank-line removal the bulk resolver produces
exactly one result record per remaining query, in input order — the
`i`-th record is the (always-defined) `bulkOne` record of the `i`-th
query and carries that query — so no single query's miss can abort the
batch. -/
theorem bulk_one_record_per_query (sc : String → String → ℚ)
    (df : List RefRow) (fuzzyb : Bool) (cutoff : ℕ) (text : String) :
    (bulkResolve sc df fuzzyb cutoff (bulkQueries text)).length
      = (bulkQueries text).length ∧
    ∀ i, i < (bulkQueries text).length →
      (bulkResolve sc df fuzzyb cutoff (bulkQueries text)).getD i
          ⟨"", none, "", ""⟩
        = bulkOne sc df fuzzyb cutoff ((bulkQueries text).getD i "") ∧
      ((bulkResolve sc df fuzzyb cutoff (bulkQueries text)).getD i
          ⟨"", none, "", ""⟩).query
        = (bulkQueries text).getD i "" := by
  refine ⟨by simp [bulkResolve], ?_⟩
  intro i hi
  have hg := getD_map (bulkOne sc df fuzzyb cutoff) (bulkQueries text) i hi
    ⟨"", none, "", ""⟩ ""
  have hg' : (bulkResolve sc df fuzzyb cutoff (bulkQueries text)).getD i
      ⟨"", none, "", ""⟩
      = bulkOne sc df fuzzyb cutoff ((bulkQueries text).getD i "") := hg
  refine ⟨hg', ?_⟩
  rw [hg', bulkOne_query]

/-- Witness for C7 at a concrete three-line input with a blank line: two
records, and the second record carries the second surviving query. -/
theorem bulk_one_record_per_query_witness :
    (bulkResolve scZero [dupA] false 70 (bulkQueries "GeneA\n\nzzz")).length
      = (bulkQueries "GeneA\n\nzzz").length ∧
    ((bulkResolve scZero [dupA] false 70 (bulkQueries "GeneA\n\nzzz")).getD 1
        ⟨"", none, "", ""⟩).query
      = (bulkQueries "GeneA\n\nzzz").getD 1 "" := by
  have h := bulk_one_record_per_query scZero [dupA] false 70 "GeneA\n\nzzz"
  exact ⟨h.1, (h.2 1 (by decide)).2⟩

/-! ## Claim C9 -/

/-- A list whose `take` is a cons is itself a cons with the same head. -/
lemma cons_of_take_eq_cons {α} {l : List α} {n : ℕ} {a : α} {t : List α}
    (h : l.take n = a :: t) : ∃ t', l = a :: t' := by
  cases l with
  | nil => simp at h
  | cons x xs =>
    cases n with
    | zero => simp at h
    | succ n =>
      rw [List.take_succ_cons] at h
      injection h with h1 _
      exact ⟨xs, by rw [h1]⟩

/-- The head of a non-empty `extract` result dominates every corpus
score, and its key comes from the corpus. -/
lemma extract_head_max (sc : String → String → ℚ) (q : String)
    (choices : List String) (limit : ℕ) (bk : String) (s : ℚ)
    (rest : List (String × ℚ))
    (h : extract sc q choices limit = (bk, s) :: rest) :
    (∀ c ∈ choices, sc q c ≤ s) ∧ bk ∈ choices := by
  unfold extract at h
  obtain ⟨tail, htail⟩ := cons_of_take_eq_cons h
  have hsorted : List.Sorted scoreGE
      (List.insertionSort scoreGE (choices.map (fun c => (c, sc q c)))) :=
    List.sorted_insertionSort scoreGE _
  rw [htail] at hsorted
  have hdom : ∀ p ∈ tail, scoreGE (bk, s) p :=
    List.rel_of_sorted_cons hsorted
  have hmemiff : ∀ p : String × ℚ,
      p ∈ (bk, s) :: tail ↔ p ∈ choices.map (fun c => (c, sc q c)) := by
    intro p
    rw [← htail]
    exact List.mem_insertionSort scoreGE
  constructor
  · intro c hc
    have hp : (c, sc q c) ∈ (bk, s) :: tail :=
      (hmemiff (c, sc q c)).mpr (List.mem_map_of_mem _ hc)
    rcases List.mem_cons.mp hp with heq | hmem
    · injection heq with h1 h2
      rw [h2]
    · exact hdom _ hmem
  · have hp : ((bk, s) : String × ℚ) ∈ choices.map (fun c => (c, sc q c)) :=
      (hmemiff (bk, s)).mp (List.mem_cons_self _ _)
    obtain ⟨c, hc, hceq⟩ := List.mem_map.mp hp
    injection hceq with h1 _
    rw [← h1]
    exact hc

/-- Claim C9: the single-gene fuzzy lookup applies no similarity
cutoff — it misses exactly when the reference dataset is empty, and
whenever `extract` returns a best candidate, that candidate's score
dominates the whole corpus and the lookup returns a row carrying the
best key, however low the score. -/
theorem singleFuzzy_no_cutoff (sc : String → String → ℚ)
    (df : List RefRow) (q : String) :
    (singleFuzzy sc df q = none ↔ df = []) ∧
    ∀ bk s rest,
      extract sc (pyLower q) (df.map gene_key) 5 = (bk, s) :: rest →
        (∀ c ∈ df.map gene_key, sc (pyLower q) c ≤ s) ∧
        ∃ r, singleFuzzy sc df q = some r ∧ gene_key r = bk := by
  have key : ∀ bk s rest,
      extract sc (pyLower q) (df.map gene_key) 5 = (bk, s) :: rest →
        ∃ r, singleFuzzy sc df q = some r ∧ gene_key r = bk := by
    intro bk s rest hext
    have hbk : bk ∈ df.map gene_key :=
      (extract_head_max sc (pyLower q) (df.map gene_key) 5 bk s rest hext).2
    obtain ⟨r0, hr0, hkey⟩ := List.mem_map.mp hbk
    have hfil : r0 ∈ df.filter (fun r => gene_key r = bk) := by
      rw [List.mem_filter]
      exact ⟨hr0, by simp [hkey]⟩
    have hne : df.filter (fun r => gene_key r = bk) ≠ [] :=
      List.ne_nil_of_mem hfil
    cases hh : (df.filter (fun r => gene_key r = bk)).head? with
    | none =>
        exact absurd (List.head?_eq_none_iff.mp hh) hne
    | some r =>
        refine ⟨r, ?_, ?_⟩
        · unfold singleFuzzy
          rw [hext]
          exact hh
        · have hr : r ∈ df.filter (fun r => gene_key r = bk) :=
            List.mem_of_mem_head? (by rw [hh]; rfl)
          have := (List.mem_filter.mp hr).2
          simpa using this
  constructor
  · constructor
    · intro hnone
      by_contra hdf
      cases hext : extract sc (pyLower q) (df.map gene_key) 5 with
      | nil =>
          have hchoices : df.map gene_key ≠ [] := by
            simpa [List.map_eq_nil_iff] using hdf
          have : (List.insertionSort scoreGE
              ((df.map gene_key).map (fun c => (c, sc (pyLower q) c)))).take 5
              = [] := hext
          rw [List.take_eq_nil_iff] at this
          rcases this with h5 | hsortnil
          · exact absurd h5 (by decide)
          · have : (df.map gene_key).map (fun c => (c, sc (pyLower q) c)) = [] := by
              have hlen := List.length_insertionSort scoreGE
                ((df.map gene_key).map (fun c => (c, sc (pyLower q) c)))
              rw [hsortnil] at hlen
              exact List.eq_nil_of_length_eq_zero hlen.symm
            simp [List.map_eq_nil_iff] at this
            exact hchoices (by simp [this])
      | cons p rest =>
          obtain ⟨r, hr, _⟩ := key p.1 p.2 rest (by rw [hext])
          rw [hr] at hnone
          exact Option.noConfusion hnone
    · intro hdf
      subst hdf
      rfl
  · intro bk s rest hext
    exact ⟨(extract_head_max sc (pyLower q) (df.map gene_key) 5 bk s rest hext).1,
      key bk s rest hext⟩

/-- Witness for C9: with every similarity score equal to 1 (far below
any bulk-style cutoff) and a nonsense query, the single fuzzy lookup
still returns the sole reference row. -/
theorem singleFuzzy_no_cutoff_witness :
    ∃ r, singleFuzzy scLow [dupA] "zzz" = some r ∧ gene_key r = "genea" :=
  ((singleFuzzy_no_cutoff scLow [dupA] "zzz").2 "genea" 1 [] (by rfl)).2

/-! ## Claim C10 -/

/-- Claim C10: in the risk calculator's pasted-text input, every line
without a comma is silently discarded before the join — the parsed
entries are exactly one entry per comma-containing line (so a commaless
line yields no abundance entry, no null-abundance row and no error),
and the entry count is the count of comma-containing lines. -/
theorem parseCalcText_drops_commaless (text : String) :
    parseCalcText text
      = ((splitLines text).filter lineHasComma).map parseCalcLine ∧
    (parseCalcText text).length
      = ((splitLines text).filter lineHasComma).length := by
  have h : parseCalcText text
      = ((splitLines text).filter lineHasComma).map parseCalcLine :=
    filterMap_ite lineHasComma parseCalcLine (splitLines text)
  exact ⟨h, by rw [h, List.length_map]⟩

/-! ## Claim C8: Schema Normalizer (spec-modelled)

No header-normalization code exists under `src/` — `load_data` consumes
headers as-is — so the Schema Normalizer of spec §4.1 is modelled from
the spec's words: sanitize each header (strip, separators to spaces,
collapse, join tokens with underscores), alias-lookup the lowercased
sanitized key, resolve collisions with numeric suffixes, and apply the
score-"value" fixup for a `_2` duplicate. -/

/-- Modelled from the spec: the separator characters §4.1 replaces with
spaces before tokenizing — whitespace, the non-breaking space, `-`, `/`
and `\`. -/
def isSep (c : Char) : Bool :=
  c == ' ' || c == '\t' || c == '\u00A0' || c == '-' || c == '/' || c == '\\'

/-- Modelled from the spec: the separator-delimited tokens of a header
(dropping empty runs, hence also surrounding separators). -/
def tokens : List Char → List (List Char)
  | [] => []
  | [c] => if isSep c then [] else [[c]]
  | c :: c2 :: cs =>
    if isSep c then tokens (c2 :: cs)
    else if isSep c2 then [c] :: tokens (c2 :: cs)
    else
      match tokens (c2 :: cs) with
      | [] => [[c]]
      | t :: ts => (c :: t) :: ts

/-- Modelled from the spec: join the remaining tokens with
underscores. -/
def joinUnd : List (List Char) → List Char
  | [] => []
  | [t] => t
  | t :: t2 :: ts => t ++ '_' :: joinUnd (t2 :: ts)

/-- Modelled from the spec: the sanitized key of a header, on character
lists. -/
def sanitizeL (l : List Char) : List Char := joinUnd (tokens l)

/-- Modelled from the spec: strip, replace separators, collapse, and
join tokens with underscores. -/
def sanitize (s : String) : String := ⟨sanitizeL s.data⟩

/-- Modelled from the spec: the static ColumnAlias Table, keyed by the
lowercased sanitized header text, mapping to canonical attribute names
(the canonical vocabulary is the one `app.py` lines 65-66 consume); each
canonical name's own lowercase is an alias of itself, which is what
makes normalization stable on canonical names. -/
def COLUMN_ALIASES : List (String × String) :=
  [("genes", "Genes"),
   ("gene", "Genes"),
   ("gene_name", "Genes"),
   ("clinical_importance_level", "Clinical_Importance_level"),
   ("transmissibility_level", "Transmissibility_level"),
   ("mobility_level", "Mobility_level"),
   ("pathogenic_level", "Pathogenic_level"),
   ("clinial_importance_score", "Clinial_Importance_score"),
   ("transmissbilitty_score", "Transmissbilitty_score"),
   ("mobility_score", "Mobility_score"),
   ("pathogenic_score", "Pathogenic_score"),
   ("final_risk_score", "Final_Risk_score")]

/-- Modelled from the spec: look a lowercased sanitized key up in the
ColumnAlias Table. -/
def aliasLookup (k : String) : Option String :=
  (COLUMN_ALIASES.find? (fun p => p.1 = k)).map (fun p => p.2)

/-- Modelled from the spec: normalize one header — sanitize, then
substitute the canonical name when the lowercased key is an alias,
otherwise keep the sanitized (non-lowercased) form. -/
def normalize1 (h : String) : String :=
  match aliasLookup (pyLower (sanitize h)) with
  | some canon => canon
  | none => sanitize h

/-- Modelled from the spec: first free numeric suffix (`_2`, `_3`, …)
for a colliding target name; the fuel bound `seen.length + 1` suffices
since at most `seen.length` candidates can be taken. -/
def pickSuffix (seen : List String) (base : String) : ℕ → ℕ → String
  | 0, k => base ++ "_" ++ toString k
  | fuel + 1, k =>
    if (base ++ "_" ++ toString k) ∈ seen then
      pickSuffix seen base fuel (k + 1)
    else base ++ "_" ++ toString k

/-- Modelled from the spec: collision resolution — a target name already
assigned earlier in the same header list gets the first free numeric
suffix, preserving first-seen order. -/
def uniquifyAux : List String → List String → List String
  | _, [] => []
  | seen, n :: ns =>
    let n' := if n ∈ seen then pickSuffix seen n (seen.length + 1) 2 else n
    n' :: uniquifyAux (n' :: seen) ns

/-- Modelled from the spec: the score whose duplicated (`_2`) column is
renamed to the canonical "value" variant by the special-case fixup. -/
def SCORE_VALUE_FIX : String × String :=
  ("Final_Risk_score_2", "Final_Risk_score_value")

/-- Modelled from the spec: if no column normalized to the canonical
"value" variant but a `_2` duplicate of the base score name exists,
rename that duplicate to the "value" name. -/
def fixupValue (ns : List String) : List String :=
  if SCORE_VALUE_FIX.2 ∈ ns ∨ SCORE_VALUE_FIX.1 ∉ ns then ns
  else ns.map (fun n => if n = SCORE_VALUE_FIX.1 then SCORE_VALUE_FIX.2 else n)

/-- Modelled from the spec: the full header normalization
`normalize(raw_headers)` — per-header normalization, collision
suffixing, then the score-"value" fixup. -/
def normalize (hs : List String) : List String :=
  fixupValue (uniquifyAux [] (hs.map normalize1))

/-- Tokens are never empty. -/
lemma tokens_ne_nil : ∀ (l : List Char), ∀ t ∈ tokens l, t ≠ []
  | [] => by simp [tokens]
  | [c] => by
      intro t ht
      rw [tokens] at ht
      split at ht
      · simp at ht
      · simp only [List.mem_singleton] at ht
        subst ht
        simp
  | c :: c2 :: cs => by
      intro t ht
      rw [tokens] at ht
      split at ht
      · exact tokens_ne_nil (c2 :: cs) t ht
      · split at ht
        · rcases List.mem_cons.mp ht with rfl | hmem
          · simp
          · exact tokens_ne_nil (c2 :: cs) t hmem
        · split at ht
          · simp only [List.mem_singleton] at ht
            subst ht
            simp
          · rename_i htc
            rcases List.mem_cons.mp ht with rfl | hmem
            · simp
            · exact tokens_ne_nil (c2 :: cs) t
                (by rw [htc]; exact List.mem_cons_of_mem _ hmem)

/-- Tokens contain no separator characters. -/
lemma tokens_sepfree : ∀ (l : List Char), ∀ t ∈ tokens l, ∀ c ∈ t, isSep c = false
  | [] => by simp [tokens]
  | [c] => by
      intro t ht
      rw [tokens] at ht
      split at ht
      · simp at ht
      · rename_i hc
        rw [Bool.not_eq_true] at hc
        simp only [List.mem_singleton] at ht
        subst ht
        intro c' hc'
        simp only [List.mem_singleton] at hc'
        subst hc'
        exact hc
  | c :: c2 :: cs => by
      intro t ht
      rw [tokens] at ht
      split at ht
      · exact tokens_sepfree (c2 :: cs) t ht
      · rename_i hc
        rw [Bool.not_eq_true] at hc
        split at ht
        · rcases List.mem_cons.mp ht with rfl | hmem
          · intro c' hc'
            simp only [List.mem_singleton] at hc'
            subst hc'
            exact hc
          · exact tokens_sepfree (c2 :: cs) t hmem
        · split at ht
          · simp only [List.mem_singleton] at ht
            subst ht
            intro c' hc'
            simp only [List.mem_singleton] at hc'
            subst hc'
            exact hc
          · rename_i t0 ts0 htc
            rcases List.mem_cons.mp ht with rfl | hmem
            · intro c' hc'
              rcases List.mem_cons.mp hc' with rfl | hmem'
              · exact hc
              · exact tokens_sepfree (c2 :: cs) t0
                  (by rw [htc]; exact List.mem_cons_self _ _) c' hmem'
            · exact tokens_sepfree (c2 :: cs) t
                (by rw [htc]; exact List.mem_cons_of_mem _ hmem)

/-- A non-empty separator-free character list is a single token. -/
lemma tokens_of_sepfree : ∀ (l : List Char), l ≠ [] →
    (∀ c ∈ l, isSep c = false) → tokens l = [l]
  | [], hne, _ => absurd rfl hne
  | [c], _, hfree => by
      rw [tokens, if_neg (by simp [hfree c (List.mem_cons_self _ _)])]
  | c :: c2 :: cs, _, hfree => by
      have hc : isSep c = false := hfree c (List.mem_cons_self _ _)
      have hc2 : isSep c2 = false := hfree c2 (by simp)
      have hcs : tokens (c2 :: cs) = [c2 :: cs] :=
        tokens_of_sepfree (c2 :: cs) (by simp)
          (fun c' hc' => hfree c' (List.mem_cons_of_mem _ hc'))
      rw [tokens, if_neg (by simp [hc]), if_neg (by simp [hc2]), hcs]

/-- Characters of an underscore-join are underscores or token
characters. -/
lemma joinUnd_mem :
    ∀ (ts : List (List Char)) (c : Char), c ∈ joinUnd ts →
      c = '_' ∨ ∃ t ∈ ts, c ∈ t
  | [], c => by simp [joinUnd]
  | [t], c => by
      intro h
      right
      exact ⟨t, by simp, by simpa [joinUnd] using h⟩
  | t :: t2 :: ts, c => by
      intro h
      rw [joinUnd] at h
      rcases List.mem_append.mp h with h1 | h2
      · right
        exact ⟨t, by simp, h1⟩
      · rcases List.mem_cons.mp h2 with rfl | h3
        · left
          rfl
        · rcases joinUnd_mem (t2 :: ts) c h3 with h4 | ⟨t', ht', hct⟩
          · left
            exact h4
          · right
            exact ⟨t', List.mem_cons_of_mem _ ht', hct⟩

/-- An underscore-join of a cons with non-empty head is non-empty. -/
lemma joinUnd_ne_nil (t : List Char) (ts : List (List Char))
    (ht : t ≠ []) : joinUnd (t :: ts) ≠ [] := by
  cases ts with
  | nil => simpa [joinUnd] using ht
  | cons t2 ts2 =>
    rw [joinUnd]
    simp

/-- The sanitized key contains no separator characters. -/
lemma sanitizeL_sepfree (l : List Char) :
    ∀ c ∈ sanitizeL l, isSep c = false := by
  intro c hc
  rcases joinUnd_mem (tokens l) c hc with rfl | ⟨t, ht, hct⟩
  · rfl
  · exact tokens_sepfree l t ht c hct

/-- Sanitization is idempotent on character lists. -/
lemma sanitizeL_idem (l : List Char) : sanitizeL (sanitizeL l) = sanitizeL l := by
  cases htok : tokens l with
  | nil =>
    unfold sanitizeL
    rw [htok]
    rfl
  | cons t ts =>
    have htne : t ≠ [] := tokens_ne_nil l t (by rw [htok]; exact List.mem_cons_self _ _)
    have hmne : sanitizeL l ≠ [] := by
      unfold sanitizeL
      rw [htok]
      exact joinUnd_ne_nil t ts htne
    have hmfree := sanitizeL_sepfree l
    show joinUnd (tokens (sanitizeL l)) = sanitizeL l
    rw [tokens_of_sepfree (sanitizeL l) hmne hmfree]
    rfl

/-- Sanitization is idempotent. -/
lemma sanitize_idem (s : String) : sanitize (sanitize s) = sanitize s :=
  congrArg String.mk (sanitizeL_idem s.data)

/-- Every canonical name in the alias table is sanitize-stable and is
its own alias under lowercasing. -/
lemma aliasTable_stable :
    ∀ p ∈ COLUMN_ALIASES,
      sanitize p.2 = p.2 ∧ aliasLookup (pyLower p.2) = some p.2 := by
  decide

/-- Per-header normalization is idempotent. -/
lemma normalize1_fix (h : String) : normalize1 (normalize1 h) = normalize1 h := by
  cases halias : aliasLookup (pyLower (sanitize h)) with
  | some v =>
    have h1 : normalize1 h = v := by
      unfold normalize1
      rw [halias]
    rw [h1]
    obtain ⟨p, hfind, hv⟩ := Option.map_eq_some'.mp halias
    have hmem : p ∈ COLUMN_ALIASES := List.mem_of_find?_eq_some hfind
    have tg := aliasTable_stable p hmem
    subst hv
    unfold normalize1
    rw [tg.1, tg.2]
  | none =>
    have h1 : normalize1 h = sanitize h := by
      unfold normalize1
      rw [halias]
    rw [h1]
    unfold normalize1
    rw [sanitize_idem, halias]

/-- Normalization of a one-element header list has no collisions to
resolve. -/
lemma normalize_singleton (x : String) :
    normalize [x] = fixupValue [normalize1 x] := by
  unfold normalize uniquifyAux
  simp [uniquifyAux]

/-- The fixup on a one-element list only renames the `_2` duplicate
name. -/
lemma fixupValue_singleton (y : String) :
    fixupValue [y]
      = if y = SCORE_VALUE_FIX.1 then [SCORE_VALUE_FIX.2] else [y] := by
  unfold fixupValue
  by_cases hy : y = SCORE_VALUE_FIX.1
  · subst hy
    rw [if_neg, if_pos rfl]
    · simp
    · rintro (hin | hout)
      · simp only [List.mem_singleton] at hin
        exact absurd hin.symm (by decide)
      · exact hout (List.mem_singleton.mpr rfl)
  · rw [if_pos, if_neg hy]
    right
    simp only [List.mem_singleton]
    intro hcontra
    exact hy hcontra.symm

/-- The "value" variant name is a fixed point of per-header
normalization. -/
lemma normalize1_value_fix :
    normalize1 SCORE_VALUE_FIX.2 = SCORE_VALUE_FIX.2 := by
  decide

/-- Claim C8: header normalization is idempotent — normalizing an
already-normalized single header returns it unchanged, i.e.
`normalize (normalize [H]) = normalize [H]` for every header `H`.
(Spec-modelled: no header-normalization code exists under `src/`.) -/
theorem normalize_idempotent (h : String) :
    normalize (normalize [h]) = normalize [h] := by
  rw [normalize_singleton h]
  by_cases hx : normalize1 h = SCORE_VALUE_FIX.1
  · rw [fixupValue_singleton, if_pos hx, normalize_singleton,
      normalize1_value_fix, fixupValue_singleton, if_neg (by decide)]
  · rw [fixupValue_singleton, if_neg hx, normalize_singleton,
      normalize1_fix h, fixupValue_singleton, if_neg hx]

end ArgRisk
